import Mathlib

/-!
Verification development for the enviro-llm repository.

The repository is a Next.js dashboard plus a Node CLI around a Python
benchmarking backend.  The TypeScript sources under `src/` are embedded
shallowly here: JavaScript numbers are modelled as exact rationals, and
JavaScript strings that are computed on (lower-cased, split, trimmed,
searched) are modelled as lists of characters, so that every definition
is executable by the kernel.  Backend components that the repository
only calls over HTTP (the Python results store, benchmark runner and
power estimator) are modelled from the specification; each such
definition is marked `Modelled from the spec:` in its doc comment.
-/

namespace EnviroLLM

/-! ## Kernel-computable rational operations

Core `Rat.add`, `Rat.sub`, `Rat.mul`, `Rat.inv` are marked irreducible,
so terms built from them cannot be evaluated by `decide`.  The
JavaScript arithmetic appearing in embedded code is therefore expressed
through the reducible constructor `Rat.divInt`; the lemmas `qSub_eq` and
`qDiv_eq` identify these operations with ordinary subtraction and
division on `ℚ`, so theorem statements can use the familiar operations.
-/

/-- Subtraction on `ℚ` via `Rat.divInt`, evaluable by the kernel. -/
def qSub (a b : ℚ) : ℚ :=
  Rat.divInt (a.num * (b.den : ℤ) - b.num * (a.den : ℤ)) ((a.den : ℤ) * (b.den : ℤ))

/-- Division on `ℚ` via `Rat.divInt`, evaluable by the kernel.
Like division on `ℚ`, it sends a zero divisor to zero. -/
def qDiv (a b : ℚ) : ℚ :=
  Rat.divInt (a.num * (b.den : ℤ)) ((a.den : ℤ) * b.num)

/-! ## JavaScript string model

Strings that embedded code computes on are modelled as `List Char`.
The operations below mirror, for the ASCII inputs that actually occur,
the JavaScript methods `toLowerCase`, `trim`, `split`, `includes` and
`startsWith` used in the sources. -/

/-- ASCII model of the JavaScript per-character `toLowerCase`. -/
def jsCharLower (c : Char) : Char :=
  if 65 ≤ c.toNat ∧ c.toNat ≤ 90 then Char.ofNat (c.toNat + 32) else c

/-- Model of `s.toLowerCase()` on a character list. -/
def jsLower (s : List Char) : List Char := s.map jsCharLower

/-- Model of `proc.name?.toLowerCase() || chr(39)chr(39)`: an absent string
yields the empty string, a present one is lower-cased. -/
def lowerOrEmpty : Option (List Char) → List Char
  | none => []
  | some s => jsLower s

/-- Model of `String.prototype.startsWith` on character lists. -/
def listStartsWith : List Char → List Char → Bool
  | _, [] => true
  | [], _ :: _ => false
  | a :: as, b :: bs => a == b && listStartsWith as bs

/-- Model of `String.prototype.includes` on character lists: the pattern
occurs as a contiguous substring (the empty pattern always occurs). -/
def listIncludes : List Char → List Char → Bool
  | [], pat => pat.isEmpty
  | hay@(_ :: rest), pat => listStartsWith hay pat || listIncludes rest pat

/-- Characters removed by `String.prototype.trim` (ASCII whitespace). -/
def isJsSpace (c : Char) : Bool :=
  c == ' ' || c == '\t' || c == '\n' || c == '\r'

/-- Model of `String.prototype.trim` on character lists. -/
def jsTrim (s : List Char) : List Char :=
  (((s.dropWhile isJsSpace).reverse).dropWhile isJsSpace).reverse

/-- Model of `s.split(chr(44))`: splitting on a comma separator.  As in
JavaScript, the empty string yields one empty field, and a trailing
separator yields a trailing empty field. -/
def splitOnComma : List Char → List (List Char)
  | [] => [[]]
  | c :: rest =>
    if c == ',' then [] :: splitOnComma rest
    else
      match splitOnComma rest with
      | [] => [[c]]
      | g :: gs => (c :: g) :: gs

/-! ## Data model

Embedded from the `BenchmarkResult` interface of
`src/app/dashboard/page.tsx` (the same shape appears in
`src/app/optimize/page.tsx`).  JavaScript numbers are modelled as `ℚ`;
optional fields as `Option`.  Although the TypeScript type declares
`metrics` non-optional, failed records carry no `metrics` at runtime
(the pages guard with `if (!result.metrics) return null`), so `metrics`
is embedded as optional, and `status` / `error` follow the record
shape of the spec data model that the CLI rendering branches on.
Timestamps are ISO-8601 strings ordered chronologically; they are
modelled as rational instants with the same ordering.  Presentation-only
fields (`prompt`, `notes`, `response`, `quantization`) are omitted. -/

/-- Completion status of a benchmark record. -/
inductive Status where
  | completed
  | failed
deriving DecidableEq

/-- Resource and speed metrics of a completed benchmark run. -/
structure Metrics where
  avg_cpu_usage : ℚ
  avg_memory_usage : ℚ
  avg_power_watts : ℚ
  peak_memory_gb : ℚ
  total_energy_wh : ℚ
  duration_seconds : ℚ
  tokens_generated : Option ℚ
  tokens_per_second : Option ℚ
deriving DecidableEq

/-- Text-quality metrics of a completed benchmark run. -/
structure QualityMetrics where
  char_count : ℚ
  word_count : ℚ
  unique_words : ℚ
  unique_word_ratio : ℚ
  avg_word_length : ℚ
  sentence_count : ℚ
  quality_score : ℚ
deriving DecidableEq

/-- One benchmark attempt, completed or failed. -/
structure BenchmarkRecord where
  id : String
  model_name : String
  timestamp : ℚ
  status : Status
  metrics : Option Metrics
  quality_metrics : Option QualityMetrics
  error : Option String
deriving DecidableEq

/-! ## JavaScript stable sort model

`Array.prototype.sort(cmp)` with a numeric comparator is stable and
orders `a` before `b` when `cmp a b < 0`, `b` before `a` when
`cmp a b > 0`, and preserves the original relative order on ties.  For a
consistent comparator every stable sort produces the same output, so the
sort is modelled by a stable insertion sort.  `jsFirstMin` computes the
element such a sort places first: the earliest element of the list that
the comparator makes at least as small as every other element. -/

/-- Stable insertion of one element: `a` goes in front of the first
element it does not compare strictly greater than. -/
def jsInsert (cmp : α → α → ℚ) (a : α) : List α → List α
  | [] => [a]
  | b :: bs => if cmp a b ≤ 0 then a :: b :: bs else b :: jsInsert cmp a bs

/-- Stable sort by a JavaScript-style numeric comparator. -/
def jsSort (cmp : α → α → ℚ) : List α → List α
  | [] => []
  | a :: as => jsInsert cmp a (jsSort cmp as)

/-- The element a stable sort by `cmp` places first: the earliest
element that is at least as small as all later candidates. -/
def jsFirstMin (cmp : α → α → ℚ) : List α → Option α
  | [] => none
  | a :: as =>
    match jsFirstMin cmp as with
    | none => some a
    | some m => if cmp a m ≤ 0 then some a else some m

/-! ## Recommendation engine

Embedded from the Model Recommendations block of
`src/app/dashboard/page.tsx` (lines 1241 to 1267).  The block filters
`benchmarkResults` with `r => r.metrics && r.quality_metrics?.quality_score`,
sorts a copy of the filtered array per criterion with
`Array.prototype.sort`, and takes element 0 of each sorted copy;
`fastest` first further filters on `r.metrics.tokens_per_second` being
truthy.  Element 0 of a possibly empty array is modelled by `head?`. -/

/-- JavaScript truthiness of an optional number: absent and zero are
falsy.  Rationals have no NaN, so nonzero means truthy. -/
def optTruthyQ : Option ℚ → Bool
  | none => false
  | some x => decide (x ≠ 0)

/-- Embeds `r.quality_metrics?.quality_score || 0`. -/
def qualityScoreOrZero (r : BenchmarkRecord) : ℚ :=
  match r.quality_metrics with
  | some q => q.quality_score
  | none => 0

/-- Embeds `r.metrics.total_energy_wh`.  The comparators are applied
only to records that passed the metrics filter; on a record without
metrics (where JavaScript would fault) the model returns 0. -/
def totalEnergy (r : BenchmarkRecord) : ℚ :=
  match r.metrics with
  | some m => m.total_energy_wh
  | none => 0

/-- Embeds `r.metrics.tokens_per_second`, absent when `metrics` is. -/
def tokensPerSecond (r : BenchmarkRecord) : Option ℚ :=
  match r.metrics with
  | some m => m.tokens_per_second
  | none => none

/-- Embeds `r.metrics.tokens_per_second || 0`. -/
def tpsOrZero (r : BenchmarkRecord) : ℚ :=
  match tokensPerSecond r with
  | some x => x
  | none => 0

/-- Embeds the filter condition
`r.metrics && r.quality_metrics?.quality_score`. -/
def hasMetricsAndQuality (r : BenchmarkRecord) : Bool :=
  r.metrics.isSome && optTruthyQ (r.quality_metrics.map (fun q => q.quality_score))

/-- Embeds `resultsWithMetrics = benchmarkResults.filter(...)`. -/
def resultsWithMetrics (rs : List BenchmarkRecord) : List BenchmarkRecord :=
  rs.filter hasMetricsAndQuality

/-- Quality per watt-hour: `(quality_score || 0) / total_energy_wh`. -/
def qualityPerWh (r : BenchmarkRecord) : ℚ :=
  qDiv (qualityScoreOrZero r) (totalEnergy r)

/-- Comparator of the `bestOverall` sort: `efficiencyB - efficiencyA`. -/
def bestOverallCmp (a b : BenchmarkRecord) : ℚ :=
  qSub (qualityPerWh b) (qualityPerWh a)

/-- Element 0 of the filtered array sorted by descending quality/Wh. -/
def bestOverall (rs : List BenchmarkRecord) : Option BenchmarkRecord :=
  (jsSort bestOverallCmp (resultsWithMetrics rs)).head?

/-- Comparator of the `mostEfficient` sort:
`a.metrics.total_energy_wh - b.metrics.total_energy_wh`. -/
def mostEfficientCmp (a b : BenchmarkRecord) : ℚ :=
  qSub (totalEnergy a) (totalEnergy b)

/-- Element 0 of the filtered array sorted by ascending energy. -/
def mostEfficient (rs : List BenchmarkRecord) : Option BenchmarkRecord :=
  (jsSort mostEfficientCmp (resultsWithMetrics rs)).head?

/-- Comparator of the `bestQuality` sort:
`(b.quality_score || 0) - (a.quality_score || 0)`. -/
def bestQualityCmp (a b : BenchmarkRecord) : ℚ :=
  qSub (qualityScoreOrZero b) (qualityScoreOrZero a)

/-- Element 0 of the filtered array sorted by descending quality. -/
def bestQuality (rs : List BenchmarkRecord) : Option BenchmarkRecord :=
  (jsSort bestQualityCmp (resultsWithMetrics rs)).head?

/-- Comparator of the `fastest` sort:
`(b.tokens_per_second || 0) - (a.tokens_per_second || 0)`. -/
def fastestCmp (a b : BenchmarkRecord) : ℚ :=
  qSub (tpsOrZero b) (tpsOrZero a)

/-- The filtered records that also pass
`r => r.metrics.tokens_per_second` (truthy tokens per second). -/
def fastCandidates (rs : List BenchmarkRecord) : List BenchmarkRecord :=
  (resultsWithMetrics rs).filter (fun r => optTruthyQ (tokensPerSecond r))

/-- Element 0 of the speed-filtered array sorted by descending
tokens per second; `none` when no record has a truthy speed. -/
def fastest (rs : List BenchmarkRecord) : Option BenchmarkRecord :=
  (jsSort fastestCmp (fastCandidates rs)).head?

/-- The four picks the recommendations panel renders. -/
structure Recommendations where
  best_overall : BenchmarkRecord
  most_efficient : BenchmarkRecord
  best_quality : BenchmarkRecord
  fastest : Option BenchmarkRecord
deriving DecidableEq

/-- The whole block: `null` (no panel) when the record list is empty or
no record passes the metrics filter, otherwise the four picks.  The
`fastest` card is rendered conditionally, hence stays optional. -/
def recommendations (rs : List BenchmarkRecord) : Option Recommendations :=
  match bestOverall rs, mostEfficient rs, bestQuality rs with
  | some bo, some me, some bq => some ⟨bo, me, bq, fastest rs⟩
  | _, _, _ => none

/-! ## Concrete records used to exercise the definitions -/

/-- A completed record: 1 Wh, quality 50, 10 tokens per second. -/
def demoA : BenchmarkRecord :=
  { id := "r1", model_name := "llama3:8b", timestamp := 2, status := .completed,
    metrics := some ⟨30, 40, 80, 8, 1, 45, some 100, some 10⟩,
    quality_metrics := some ⟨100, 20, 15, mkRat 3 4, 5, 2, 50⟩, error := none }

/-- A completed record: 2 Wh, quality 80, 9 tokens per second. -/
def demoB : BenchmarkRecord :=
  { id := "r2", model_name := "phi3:mini", timestamp := 1, status := .completed,
    metrics := some ⟨20, 30, 60, 4, 2, 50, some 90, some 9⟩,
    quality_metrics := some ⟨90, 18, 12, mkRat 2 3, 4, 2, 80⟩, error := none }

/-- A completed record with the lowest energy of the demo set but
without quality metrics, so the recommendation filter drops it. -/
def demoNoQuality : BenchmarkRecord :=
  { id := "nq", model_name := "tiny:1b", timestamp := 3, status := .completed,
    metrics := some ⟨10, 10, 55, 4, mkRat 1 2, 30, some 50, some 5⟩,
    quality_metrics := none, error := none }

/-- A failed record: no metrics, error message set. -/
def demoFailed : BenchmarkRecord :=
  { id := "fail", model_name := "missing:7b", timestamp := 4, status := .failed,
    metrics := none, quality_metrics := none, error := some "model not found" }

/-- Tied with `demoTieEarly` on energy but with the later timestamp;
listed first, as the store orders records by timestamp descending. -/
def demoTieLate : BenchmarkRecord :=
  { id := "late", model_name := "late:7b", timestamp := 6, status := .completed,
    metrics := some ⟨25, 35, 70, 6, 3, 40, some 80, some 8⟩,
    quality_metrics := some ⟨80, 16, 10, mkRat 5 8, 4, 2, 40⟩, error := none }

/-- Tied with `demoTieLate` on energy, with the earlier timestamp. -/
def demoTieEarly : BenchmarkRecord :=
  { id := "early", model_name := "early:7b", timestamp := 5, status := .completed,
    metrics := some ⟨26, 36, 71, 6, 3, 41, some 82, some 7⟩,
    quality_metrics := some ⟨82, 17, 11, mkRat 5 8, 4, 2, 70⟩, error := none }

/-! ## Results store mutations issued from the clients -/

/-- Modelled from the spec: the backend Results Store delete operation
(spec section 4.6, `delete(id)` succeeds or is NotFound); the Python
store is not part of src.  Returns the new store contents and whether
the HTTP response was ok. -/
def storeDelete (store : List BenchmarkRecord) (id : String) :
    List BenchmarkRecord × Bool :=
  if store.any (fun r => r.id == id) then
    (store.filter (fun r => r.id != id), true)
  else (store, false)

/-- Modelled from the spec: the backend clear-all operation
(`DELETE /benchmarks`), which empties the store and responds ok. -/
def storeClear (_store : List BenchmarkRecord) : List BenchmarkRecord × Bool :=
  ([], true)

/-- Embeds `deleteBenchmark` of `src/app/dashboard/page.tsx` (lines 421
to 444): issue the DELETE against the store; only when the response is
ok, filter the record out of the React state and rewrite the
localStorage cache.  The pair is (store, client cache). -/
def dashboardDeleteBenchmark (store cache : List BenchmarkRecord) (id : String) :
    List BenchmarkRecord × List BenchmarkRecord :=
  match storeDelete store id with
  | (store2, true) => (store2, cache.filter (fun r => r.id != id))
  | (store2, false) => (store2, cache)

/-- Embeds `deleteBenchmark` of `src/app/optimize/page.tsx` (lines 708
to 712): the record is filtered out of the React state and the
localStorage cache only; no request is made to the store. -/
def optimizeDeleteBenchmark (store cache : List BenchmarkRecord) (id : String) :
    List BenchmarkRecord × List BenchmarkRecord :=
  (store, cache.filter (fun r => r.id != id))

/-- Embeds `clearBenchmarks` (present identically in both pages): issue
DELETE for the whole store; only on an ok response empty the state and
remove the localStorage key. -/
def clearBenchmarks (store cache : List BenchmarkRecord) :
    List BenchmarkRecord × List BenchmarkRecord :=
  match storeClear store with
  | (store2, true) => (store2, [])
  | (store2, false) => (store2, cache)

/-! ## Spec-modelled backend: record assembly, metrics, power -/

/-- Outcome of one benchmark run as seen by the Benchmark Runner. -/
inductive RunOutcome where
  | success (m : Metrics) (q : QualityMetrics)
  | failure (message : String)

/-- Modelled from the spec: record assembly by the Benchmark Runner
(spec section 4.5, steps 3 and 4); the Python runner is not part of
src.  Success yields a completed record with metrics and no error,
failure a failed record with an error and no metrics. -/
def assembleRecord (id model : String) (ts : ℚ) : RunOutcome → BenchmarkRecord
  | .success m q =>
    { id := id, model_name := model, timestamp := ts, status := .completed,
      metrics := some m, quality_metrics := some q, error := none }
  | .failure msg =>
    { id := id, model_name := model, timestamp := ts, status := .failed,
      metrics := none, quality_metrics := none, error := some msg }

/-- Modelled from the spec: metrics assembly by the backend runner,
absent from src.  `tokens_per_second` is computed as
`tokens_generated / duration_seconds` exactly when tokens were
counted; the structure carries no watt-hour-per-token field. -/
def mkMetrics (avgCpu avgMem avgPower peakMem energyWh duration : ℚ)
    (tokens : Option ℚ) : Metrics :=
  { avg_cpu_usage := avgCpu, avg_memory_usage := avgMem,
    avg_power_watts := avgPower, peak_memory_gb := peakMem,
    total_energy_wh := energyWh, duration_seconds := duration,
    tokens_generated := tokens,
    tokens_per_second := tokens.map (fun t => qDiv t duration) }

/-- Embeds `whPerToken` as computed at render time in
`src/app/dashboard/page.tsx` (lines 809 to 811) and
`src/app/optimize/page.tsx` (lines 343 to 345): when
`tokens_generated` is truthy, divide `total_energy_wh` by it,
otherwise display N/A. -/
def whPerToken (m : Metrics) : Option ℚ :=
  match m.tokens_generated with
  | some t => if t ≠ 0 then some (qDiv m.total_energy_wh t) else none
  | none => none

/-- One resource sample of the Metrics Sampler (spec section 4.2). -/
structure Sample where
  cpu_percent : ℚ
  memory_percent : ℚ
  gpu_watts : Option ℚ
  gpu_memory_percent : Option ℚ
deriving DecidableEq

/-- Modelled from the spec: the base idle wattage default. -/
def BASE_IDLE_WATTS : ℚ := 50

/-- Modelled from the spec: watts per percent of CPU default. -/
def CPU_WATT_COEFFICIENT : ℚ := 2

/-- Modelled from the spec: percentages are clamped to [0, 100] before
use. -/
def clampPercent (x : ℚ) : ℚ := max 0 (min 100 x)

/-- Modelled from the spec: GPU term of the power formula; an absent
reading contributes nothing. -/
def gpuContribution : Option ℚ → ℚ
  | none => 0
  | some g => g

/-- Modelled from the spec: the Power Estimator formula of section 4.3;
the Python estimator is not part of src. -/
def instantaneousWatts (s : Sample) : ℚ :=
  BASE_IDLE_WATTS + clampPercent s.cpu_percent * CPU_WATT_COEFFICIENT
    + gpuContribution s.gpu_watts

/-- Modelled from the spec: mean of the clamped CPU percentages over a
window. -/
def avgCpuPercent (samples : List Sample) : ℚ :=
  (samples.map (fun s => clampPercent s.cpu_percent)).sum / samples.length

/-- Modelled from the spec: arithmetic mean of the instantaneous watts
over a window. -/
def avgPowerWatts (samples : List Sample) : ℚ :=
  (samples.map instantaneousWatts).sum / samples.length

/-! ## CLI: clean command, benchmark model selection, process filter -/

/-- Outcome of the `clean` command of src/unnamed/part_001 (lines 215
to 261) with respect to the persisted store. -/
inductive CleanOutcome where
  | nothingToClean
  | cancelled
  | deleted
deriving DecidableEq

/-- Embeds the confirmation test of the clean command: the command
proceeds unless the lower-cased answer differs from both y and yes. -/
def confirmAccepted (answer : List Char) : Bool :=
  jsLower answer == "y".data || jsLower answer == "yes".data

/-- Embeds the `clean` command control flow: a missing database file
reports nothing to clean (an early return, not an error); otherwise the
file is unlinked only on an accepted confirmation answer. -/
def cleanCommand (dbExists : Bool) (answer : List Char) : CleanOutcome :=
  if !dbExists then .nothingToClean
  else if !(confirmAccepted answer) then .cancelled
  else .deleted

/-- Whether the store file still exists after running `clean`. -/
def dbExistsAfterClean (dbExists : Bool) (answer : List Char) : Bool :=
  match cleanCommand dbExists answer with
  | .deleted => false
  | _ => dbExists

/-- What the benchmark command of src/unnamed/part_001 does after the
Ollama status arrives: proceed to benchmark a model list, or exit with
a status code before any benchmark runs. -/
inductive ModelSelection where
  | run (models : List (List Char))
  | exit (code : Nat)
deriving DecidableEq

/-- JavaScript truthiness of the optional `--models` option value. -/
def optTruthyS : Option (List Char) → Bool
  | none => false
  | some s => !s.isEmpty

/-- Embeds the model-selection logic of the benchmark command
(src/unnamed/part_001, lines 300 to 323): a truthy `--models` value is
split on commas and each entry trimmed; otherwise the command prints
the available models and exits, with code 1 when Ollama reports no
models and code 0 otherwise. -/
def selectModels (modelsOpt : Option (List Char))
    (available : List (List Char)) : ModelSelection :=
  if optTruthyS modelsOpt then
    .run ((splitOnComma (modelsOpt.getD [])).map jsTrim)
  else if available.length = 0 then .exit 1
  else .exit 0

/-- A process row from the system-information library; only the fields
the filters read are modelled. -/
structure ProcInfo where
  pid : Nat
  name : Option (List Char)
  command : Option (List Char)
deriving DecidableEq

/-- The LLM keyword list of src/unnamed/part_001. -/
def LLM_PROCESSES : List (List Char) :=
  ["ollama".data, "llama.cpp".data, "llama-server".data, "llamacpp".data,
   "text-generation-webui".data, "koboldcpp".data, "oobabooga".data,
   "lmstudio".data, "gpt4all".data, "localai".data, "vllm".data,
   "llama-cpp-python".data, "transformers".data, "inference".data]

/-- The exclusion list of src/unnamed/part_001. -/
def excludePatterns : List (List Char) :=
  ["code.exe".data, "vscode".data, "electron".data, "chrome".data,
   "node_modules".data, "npm".data, "npx".data, "esbuild".data,
   "webpack".data, "typescript".data, "tsx".data, "postcss".data,
   "nvidia web helper".data, "discord".data]

/-- Embeds the filter predicate of `findLLMProcesses` in
src/unnamed/part_001 (lines 25 to 51): any exclusion match rejects the
process; otherwise any keyword match accepts it. -/
def isLLMProcess (p : ProcInfo) : Bool :=
  if excludePatterns.any (fun pat =>
      listIncludes (lowerOrEmpty p.name) pat
        || listIncludes (lowerOrEmpty p.command) pat) then
    false
  else
    LLM_PROCESSES.any (fun n =>
      listIncludes (lowerOrEmpty p.name) n
        || listIncludes (lowerOrEmpty p.command) n)

/-- Embeds `findLLMProcesses` of src/unnamed/part_001 (lines 25 to 51):
the process query either throws (the catch returns the empty list) or
yields rows that are filtered by `isLLMProcess`. -/
def findLLMProcesses (query : Except String (List ProcInfo)) :
    List ProcInfo :=
  match query with
  | .error _ => []
  | .ok ps => ps.filter isLLMProcess

/-- The LLM keyword list of cli/index.ts (the older CLI entry). -/
def LLM_PROCESSES_legacy : List (List Char) :=
  ["ollama".data, "llama".data, "python".data, "node".data,
   "llamacpp".data, "text-generation-webui".data, "koboldcpp".data,
   "oobabooga".data, "lmstudio".data, "gpt4all".data]

/-- Embeds the filter predicate of `findLLMProcesses` in cli/index.ts
(lines 24 to 36): keyword match only, with no exclusion list. -/
def isLLMProcessLegacy (p : ProcInfo) : Bool :=
  LLM_PROCESSES_legacy.any (fun n =>
    listIncludes (lowerOrEmpty p.name) n
      || listIncludes (lowerOrEmpty p.command) n)

/-- Embeds `findLLMProcesses` of cli/index.ts (lines 24 to 36). -/
def findLLMProcessesLegacy (query : Except String (List ProcInfo)) :
    List ProcInfo :=
  match query with
  | .error _ => []
  | .ok ps => ps.filter isLLMProcessLegacy

/-- A vscode helper process whose command line mentions node. -/
def demoVscodeProc : ProcInfo :=
  { pid := 4242, name := some ("vscode".data),
    command := some ("node /usr/lib/code/out/cli.js".data) }

/-- An Ollama server process. -/
def demoOllamaProc : ProcInfo :=
  { pid := 7, name := some ("Ollama".data),
    command := some ("/usr/local/bin/ollama serve".data) }

/-! ## Theorems -/

theorem qSub_eq (a b : ℚ) : qSub a b = a - b := by
  have ha : ((a.den : ℚ)) ≠ 0 := by exact_mod_cast a.den_ne_zero
  have hb : ((b.den : ℚ)) ≠ 0 := by exact_mod_cast b.den_ne_zero
  have h1 : (a.num : ℚ) = a * a.den := (div_eq_iff ha).mp (Rat.num_div_den a)
  have h2 : (b.num : ℚ) = b * b.den := (div_eq_iff hb).mp (Rat.num_div_den b)
  rw [qSub, Rat.divInt_eq_div]
  push_cast
  rw [div_eq_iff (mul_ne_zero ha hb), h1, h2]
  ring

theorem qDiv_eq (a b : ℚ) : qDiv a b = a / b := by
  have ha : ((a.den : ℚ)) ≠ 0 := by exact_mod_cast a.den_ne_zero
  have hb : ((b.den : ℚ)) ≠ 0 := by exact_mod_cast b.den_ne_zero
  rcases eq_or_ne b 0 with hb0 | hb0
  · subst hb0
    simp [qDiv, Rat.divInt_zero]
  · have hbn : (b.num : ℚ) ≠ 0 := by
      exact_mod_cast Rat.num_ne_zero.mpr hb0
    have h1 : (a.num : ℚ) = a * a.den := (div_eq_iff ha).mp (Rat.num_div_den a)
    have h2 : (b.num : ℚ) = b * b.den := (div_eq_iff hb).mp (Rat.num_div_den b)
    rw [qDiv, Rat.divInt_eq_div]
    push_cast
    rw [h1, h2]
    field_simp
    rw [h1, h2]
    ring

theorem jsInsert_mem (cmp : α → α → ℚ) (a x : α) (l : List α) :
    x ∈ jsInsert cmp a l ↔ x = a ∨ x ∈ l := by
  induction l with
  | nil => simp [jsInsert]
  | cons b bs ih =>
    rw [jsInsert]
    split
    · simp
    · simp [ih]
      tauto

theorem jsSort_mem (cmp : α → α → ℚ) (x : α) (l : List α) :
    x ∈ jsSort cmp l ↔ x ∈ l := by
  induction l with
  | nil => simp [jsSort]
  | cons a as ih => simp [jsSort, jsInsert_mem, ih]

theorem jsInsert_head (cmp : α → α → ℚ) (a : α) (l : List α) :
    (jsInsert cmp a l).head? =
      match l.head? with
      | none => some a
      | some b => if cmp a b ≤ 0 then some a else some b := by
  cases l with
  | nil => rfl
  | cons b bs =>
    rw [jsInsert]
    by_cases h : cmp a b ≤ 0
    · rw [if_pos h]
      simp [h]
    · rw [if_neg h]
      simp [h]

theorem jsSort_head (cmp : α → α → ℚ) (l : List α) :
    (jsSort cmp l).head? = jsFirstMin cmp l := by
  induction l with
  | nil => rfl
  | cons a as ih =>
    rw [jsSort, jsInsert_head, ih, jsFirstMin]

theorem jsFirstMin_cons_isSome (cmp : α → α → ℚ) (a : α) (as : List α) :
    (jsFirstMin cmp (a :: as)).isSome = true := by
  rw [jsFirstMin]
  cases jsFirstMin cmp as with
  | none => rfl
  | some m =>
    show (if cmp a m ≤ 0 then some a else some m).isSome = true
    by_cases h : cmp a m ≤ 0
    · rw [if_pos h]
      rfl
    · rw [if_neg h]
      rfl

theorem jsFirstMin_split (cmp : α → α → ℚ)
    (htot : ∀ a b, cmp a b ≤ 0 ∨ cmp b a ≤ 0)
    (htrans : ∀ a b c, cmp a b ≤ 0 → cmp b c ≤ 0 → cmp a c ≤ 0) :
    ∀ l r, jsFirstMin cmp l = some r →
      ∃ l₁ l₂, l = l₁ ++ r :: l₂ ∧ (∀ y ∈ l₁, ¬ cmp y r ≤ 0) ∧
        (∀ y ∈ l₂, cmp r y ≤ 0) := by
  intro l
  induction l with
  | nil =>
    intro r h
    rw [jsFirstMin] at h
    exact Option.noConfusion h
  | cons a as ih =>
    intro r h
    rw [jsFirstMin] at h
    cases as with
    | nil =>
      dsimp [jsFirstMin] at h
      obtain rfl : a = r := Option.some.inj h
      exact ⟨[], [], rfl, by simp, by simp⟩
    | cons b bs =>
      cases hm : jsFirstMin cmp (b :: bs) with
      | none =>
        have hs := jsFirstMin_cons_isSome cmp b bs
        rw [hm] at hs
        simp at hs
      | some m =>
        rw [hm] at h
        dsimp only at h
        obtain ⟨l₁, l₂, heq, hfront, hback⟩ := ih m hm
        by_cases hcase : cmp a m ≤ 0
        · rw [if_pos hcase] at h
          obtain rfl : a = r := Option.some.inj h
          refine ⟨[], b :: bs, rfl, by simp, ?_⟩
          intro y hy
          rw [heq] at hy
          rcases List.mem_append.mp hy with hy1 | hy2
          · rcases htot y m with hym | hmy
            · exact absurd hym (hfront y hy1)
            · exact htrans a m y hcase hmy
          · rcases List.mem_cons.mp hy2 with rfl | hy3
            · exact hcase
            · exact htrans a m y hcase (hback y hy3)
        · rw [if_neg hcase] at h
          obtain rfl : m = r := Option.some.inj h
          refine ⟨a :: l₁, l₂, by simp [heq], ?_, hback⟩
          intro y hy
          rcases List.mem_cons.mp hy with rfl | hy1
          · exact hcase
          · exact hfront y hy1

theorem jsFirstMin_min (cmp : α → α → ℚ)
    (htot : ∀ a b, cmp a b ≤ 0 ∨ cmp b a ≤ 0)
    (htrans : ∀ a b c, cmp a b ≤ 0 → cmp b c ≤ 0 → cmp a c ≤ 0)
    (l : List α) (r : α) (h : jsFirstMin cmp l = some r) :
    r ∈ l ∧ ∀ y ∈ l, cmp r y ≤ 0 := by
  obtain ⟨l₁, l₂, heq, hfront, hback⟩ := jsFirstMin_split cmp htot htrans l r h
  subst heq
  constructor
  · simp
  · intro y hy
    rcases List.mem_append.mp hy with hy1 | hy2
    · rcases htot y r with hyr | hry
      · exact absurd hyr (hfront y hy1)
      · exact hry
    · rcases List.mem_cons.mp hy2 with rfl | hy3
      · rcases htot y y with hyy | hyy <;> exact hyy
      · exact hback y hy3

/-! ## Comparator facts and pick characterizations -/

theorem qSub_nonpos (a b : ℚ) : qSub a b ≤ 0 ↔ a ≤ b := by
  rw [qSub_eq]
  exact sub_nonpos

theorem qSub_not_nonpos (a b : ℚ) : ¬ qSub a b ≤ 0 ↔ b < a := by
  rw [qSub_nonpos]
  exact not_le

theorem ascCmp_tot (f : α → ℚ) (a b : α) :
    qSub (f a) (f b) ≤ 0 ∨ qSub (f b) (f a) ≤ 0 := by
  rw [qSub_nonpos, qSub_nonpos]
  exact le_total (f a) (f b)

theorem ascCmp_trans (f : α → ℚ) (a b c : α) :
    qSub (f a) (f b) ≤ 0 → qSub (f b) (f c) ≤ 0 → qSub (f a) (f c) ≤ 0 := by
  rw [qSub_nonpos, qSub_nonpos, qSub_nonpos]
  exact le_trans

/-- Claim C1, corrected.  Each pick of the Model Recommendations block
is extremal for its criterion, but over `resultsWithMetrics rs` (the
records with metrics present and a truthy quality score), not over all
non-failed records; `fastest` further restricts to records with truthy
`tokens_per_second`. -/
theorem C1_picks_extremal (rs : List BenchmarkRecord) :
    (∀ r, bestOverall rs = some r → r ∈ resultsWithMetrics rs ∧
      ∀ y ∈ resultsWithMetrics rs,
        qualityScoreOrZero y / totalEnergy y ≤ qualityScoreOrZero r / totalEnergy r)
  ∧ (∀ r, mostEfficient rs = some r → r ∈ resultsWithMetrics rs ∧
      ∀ y ∈ resultsWithMetrics rs, totalEnergy r ≤ totalEnergy y)
  ∧ (∀ r, bestQuality rs = some r → r ∈ resultsWithMetrics rs ∧
      ∀ y ∈ resultsWithMetrics rs, qualityScoreOrZero y ≤ qualityScoreOrZero r)
  ∧ (∀ r, fastest rs = some r → r ∈ fastCandidates rs ∧
      ∀ y ∈ fastCandidates rs, tpsOrZero y ≤ tpsOrZero r) := by
  refine ⟨?_, ?_, ?_, ?_⟩
  · intro r h
    rw [bestOverall, jsSort_head] at h
    obtain ⟨hm, hmin⟩ := jsFirstMin_min bestOverallCmp
      (fun a b => ascCmp_tot qualityPerWh b a)
      (fun a b c h1 h2 => ascCmp_trans qualityPerWh c b a h2 h1) _ r h
    refine ⟨hm, fun y hy => ?_⟩
    have hc := hmin y hy
    rw [bestOverallCmp, qSub_nonpos] at hc
    simpa only [qualityPerWh, qDiv_eq] using hc
  · intro r h
    rw [mostEfficient, jsSort_head] at h
    obtain ⟨hm, hmin⟩ := jsFirstMin_min mostEfficientCmp
      (fun a b => ascCmp_tot totalEnergy a b)
      (fun a b c h1 h2 => ascCmp_trans totalEnergy a b c h1 h2) _ r h
    refine ⟨hm, fun y hy => ?_⟩
    have hc := hmin y hy
    rwa [mostEfficientCmp, qSub_nonpos] at hc
  · intro r h
    rw [bestQuality, jsSort_head] at h
    obtain ⟨hm, hmin⟩ := jsFirstMin_min bestQualityCmp
      (fun a b => ascCmp_tot qualityScoreOrZero b a)
      (fun a b c h1 h2 => ascCmp_trans qualityScoreOrZero c b a h2 h1) _ r h
    refine ⟨hm, fun y hy => ?_⟩
    have hc := hmin y hy
    rwa [bestQualityCmp, qSub_nonpos] at hc
  · intro r h
    rw [fastest, jsSort_head] at h
    obtain ⟨hm, hmin⟩ := jsFirstMin_min fastestCmp
      (fun a b => ascCmp_tot tpsOrZero b a)
      (fun a b c h1 h2 => ascCmp_trans tpsOrZero c b a h2 h1) _ r h
    refine ⟨hm, fun y hy => ?_⟩
    have hc := hmin y hy
    rwa [fastestCmp, qSub_nonpos] at hc

/-- Claim C1, witness: on the demo list, `mostEfficient` returns a
record of minimal energy among the filtered records. -/
theorem C1_picks_extremal_witness :
    demoA ∈ resultsWithMetrics [demoA, demoB] ∧
      ∀ y ∈ resultsWithMetrics [demoA, demoB], totalEnergy demoA ≤ totalEnergy y :=
  (C1_picks_extremal [demoA, demoB]).2.1 demoA (by decide)

/-- Claim C1, counterexample: `demoNoQuality` is a non-failed
(completed) record with strictly smaller energy than `demoB`, yet
`mostEfficient` skips it because it has no quality score, so the picks
are not computed over all non-failed records. -/
theorem C1_counterexample :
    demoNoQuality.status = Status.completed
  ∧ demoNoQuality.error = none
  ∧ totalEnergy demoNoQuality < totalEnergy demoB
  ∧ mostEfficient [demoB, demoNoQuality] = some demoB := by decide

/-- Claim C2, corrected.  The empty record set yields no
recommendations, and a singleton record set yields that record as all
picks only when the record passes the metrics-and-quality filter; its
`fastest` card additionally requires a truthy `tokens_per_second`. -/
theorem C2_empty_and_singleton :
    recommendations ([] : List BenchmarkRecord) = none
  ∧ (∀ r : BenchmarkRecord, hasMetricsAndQuality r = true →
      recommendations [r] =
        some ⟨r, r, r, if optTruthyQ (tokensPerSecond r) then some r else none⟩) := by
  constructor
  · rfl
  · intro r hr
    have hfilter : resultsWithMetrics [r] = [r] := by
      simp [resultsWithMetrics, hr]
    have hbo : bestOverall [r] = some r := by
      simp [bestOverall, hfilter, jsSort, jsInsert]
    have hme : mostEfficient [r] = some r := by
      simp [mostEfficient, hfilter, jsSort, jsInsert]
    have hbq : bestQuality [r] = some r := by
      simp [bestQuality, hfilter, jsSort, jsInsert]
    have hfa : fastest [r] = (if optTruthyQ (tokensPerSecond r) then some r else none) := by
      by_cases ht : optTruthyQ (tokensPerSecond r)
      · simp [fastest, fastCandidates, hfilter, ht, jsSort, jsInsert]
      · simp [fastest, fastCandidates, hfilter, ht, jsSort]
    rw [recommendations, hbo, hme, hbq, hfa]

/-- Claim C2, witness: the singleton statement applied to `demoA`,
whose `tokens_per_second` is truthy. -/
theorem C2_empty_and_singleton_witness :
    recommendations [demoA] =
      some ⟨demoA, demoA, demoA,
        if optTruthyQ (tokensPerSecond demoA) then some demoA else none⟩ :=
  C2_empty_and_singleton.2 demoA (by decide)

/-- Claim C2, counterexample: a record set containing exactly one
record (a failed one) yields no recommendations at all, so the single
record is not simultaneously the four picks. -/
theorem C2_counterexample :
    [demoFailed].length = 1 ∧ recommendations [demoFailed] = none := by decide

/-- Claim C3, corrected.  Ties are broken by position in the input
record list, not by timestamp: whenever a pick returns `r`, every
record placed before `r` in the filtered list is strictly worse on the
criterion, so among tied records the one occurring first in the list
wins.  The record list arrives from the store ordered by timestamp
descending, making this the latest tied record, not the earliest. -/
theorem C3_tie_first_in_list (rs : List BenchmarkRecord) :
    (∀ r, bestOverall rs = some r → ∃ l₁ l₂,
        resultsWithMetrics rs = l₁ ++ r :: l₂
      ∧ (∀ y ∈ l₁, qualityScoreOrZero y / totalEnergy y
            < qualityScoreOrZero r / totalEnergy r)
      ∧ (∀ y ∈ l₂, qualityScoreOrZero y / totalEnergy y
            ≤ qualityScoreOrZero r / totalEnergy r))
  ∧ (∀ r, mostEfficient rs = some r → ∃ l₁ l₂,
        resultsWithMetrics rs = l₁ ++ r :: l₂
      ∧ (∀ y ∈ l₁, totalEnergy r < totalEnergy y)
      ∧ (∀ y ∈ l₂, totalEnergy r ≤ totalEnergy y))
  ∧ (∀ r, bestQuality rs = some r → ∃ l₁ l₂,
        resultsWithMetrics rs = l₁ ++ r :: l₂
      ∧ (∀ y ∈ l₁, qualityScoreOrZero y < qualityScoreOrZero r)
      ∧ (∀ y ∈ l₂, qualityScoreOrZero y ≤ qualityScoreOrZero r))
  ∧ (∀ r, fastest rs = some r → ∃ l₁ l₂,
        fastCandidates rs = l₁ ++ r :: l₂
      ∧ (∀ y ∈ l₁, tpsOrZero y < tpsOrZero r)
      ∧ (∀ y ∈ l₂, tpsOrZero y ≤ tpsOrZero r)) := by
  refine ⟨?_, ?_, ?_, ?_⟩
  · intro r h
    rw [bestOverall, jsSort_head] at h
    obtain ⟨l₁, l₂, heq, hfront, hback⟩ := jsFirstMin_split bestOverallCmp
      (fun a b => ascCmp_tot qualityPerWh b a)
      (fun a b c h1 h2 => ascCmp_trans qualityPerWh c b a h2 h1) _ r h
    refine ⟨l₁, l₂, heq, fun y hy => ?_, fun y hy => ?_⟩
    · have hc := hfront y hy
      rw [bestOverallCmp, qSub_not_nonpos] at hc
      simpa only [qualityPerWh, qDiv_eq] using hc
    · have hc := hback y hy
      rw [bestOverallCmp, qSub_nonpos] at hc
      simpa only [qualityPerWh, qDiv_eq] using hc
  · intro r h
    rw [mostEfficient, jsSort_head] at h
    obtain ⟨l₁, l₂, heq, hfront, hback⟩ := jsFirstMin_split mostEfficientCmp
      (fun a b => ascCmp_tot totalEnergy a b)
      (fun a b c h1 h2 => ascCmp_trans totalEnergy a b c h1 h2) _ r h
    refine ⟨l₁, l₂, heq, fun y hy => ?_, fun y hy => ?_⟩
    · have hc := hfront y hy
      rwa [mostEfficientCmp, qSub_not_nonpos] at hc
    · have hc := hback y hy
      rwa [mostEfficientCmp, qSub_nonpos] at hc
  · intro r h
    rw [bestQuality, jsSort_head] at h
    obtain ⟨l₁, l₂, heq, hfront, hback⟩ := jsFirstMin_split bestQualityCmp
      (fun a b => ascCmp_tot qualityScoreOrZero b a)
      (fun a b c h1 h2 => ascCmp_trans qualityScoreOrZero c b a h2 h1) _ r h
    refine ⟨l₁, l₂, heq, fun y hy => ?_, fun y hy => ?_⟩
    · have hc := hfront y hy
      rwa [bestQualityCmp, qSub_not_nonpos] at hc
    · have hc := hback y hy
      rwa [bestQualityCmp, qSub_nonpos] at hc
  · intro r h
    rw [fastest, jsSort_head] at h
    obtain ⟨l₁, l₂, heq, hfront, hback⟩ := jsFirstMin_split fastestCmp
      (fun a b => ascCmp_tot tpsOrZero b a)
      (fun a b c h1 h2 => ascCmp_trans tpsOrZero c b a h2 h1) _ r h
    refine ⟨l₁, l₂, heq, fun y hy => ?_, fun y hy => ?_⟩
    · have hc := hfront y hy
      rwa [fastestCmp, qSub_not_nonpos] at hc
    · have hc := hback y hy
      rwa [fastestCmp, qSub_nonpos] at hc

/-- Claim C3, witness: on a list holding two records tied on energy,
`mostEfficient` splits the filtered list with its pick in front. -/
theorem C3_tie_first_in_list_witness :
    ∃ l₁ l₂,
      resultsWithMetrics [demoTieLate, demoTieEarly] = l₁ ++ demoTieLate :: l₂
    ∧ (∀ y ∈ l₁, totalEnergy demoTieLate < totalEnergy y)
    ∧ (∀ y ∈ l₂, totalEnergy demoTieLate ≤ totalEnergy y) :=
  (C3_tie_first_in_list [demoTieLate, demoTieEarly]).2.1 demoTieLate (by decide)

/-- Claim C3, counterexample: two records tie on total energy, the one
with the earlier timestamp is a candidate, yet the code selects the
record with the later timestamp because it comes first in the input
list, refuting the earliest-timestamp tie-break. -/
theorem C3_counterexample :
    totalEnergy demoTieLate = totalEnergy demoTieEarly
  ∧ demoTieEarly.timestamp < demoTieLate.timestamp
  ∧ hasMetricsAndQuality demoTieEarly = true
  ∧ demoTieLate ≠ demoTieEarly
  ∧ mostEfficient [demoTieLate, demoTieEarly] = some demoTieLate := by decide

/-- Claim C4 fails in the code: on the optimize page, deleting by id
touches only the client cache while the store keeps the record; the
dashboard delete and the shared clear path do mutate the store first
and only then the cache. -/
theorem C4_optimize_delete_skips_store :
    optimizeDeleteBenchmark [demoA] [demoA] "r1" = ([demoA], [])
  ∧ dashboardDeleteBenchmark [demoA] [demoA] "r1" = ([], [])
  ∧ clearBenchmarks [demoA] [demoA] = ([], []) := by decide

/-- Claim C5: every record the runner assembles satisfies mutual
exclusion: completed iff metrics present, failed iff error present,
and exactly one of metrics and error is present. -/
theorem C5_metrics_error_exclusive (id model : String) (ts : ℚ) (o : RunOutcome) :
    ((assembleRecord id model ts o).status = Status.completed ↔
      (assembleRecord id model ts o).metrics.isSome = true)
  ∧ ((assembleRecord id model ts o).status = Status.failed ↔
      (assembleRecord id model ts o).error.isSome = true)
  ∧ ((assembleRecord id model ts o).metrics.isSome = true ↔
      (assembleRecord id model ts o).error.isSome = false) := by
  cases o <;> simp [assembleRecord]

/-- Claim C6: assembled metrics store
`tokens_per_second = tokens_generated / duration_seconds` whenever
tokens were counted, and the watt-hour-per-token figure is derived on
read as `total_energy_wh / tokens_generated`. -/
theorem C6_derived_rates :
    (∀ (a b c d e dur : ℚ) (tok : Option ℚ) (t : ℚ),
      (mkMetrics a b c d e dur tok).tokens_generated = some t →
      (mkMetrics a b c d e dur tok).tokens_per_second = some (t / dur))
  ∧ (∀ (m : Metrics) (t : ℚ), m.tokens_generated = some t → t ≠ 0 →
      whPerToken m = some (m.total_energy_wh / t)) := by
  constructor
  · intro a b c d e dur tok t ht
    have htok : tok = some t := ht
    subst htok
    simp [mkMetrics, qDiv_eq]
  · intro m t ht hnz
    rw [whPerToken]
    rw [ht]
    simp [hnz, qDiv_eq]

/-- Claim C6, witness: a concrete metrics value with 100 tokens over
50 seconds and 1 Wh. -/
theorem C6_derived_rates_witness :
    (mkMetrics 30 40 80 8 1 50 (some 100)).tokens_per_second = some ((100 : ℚ) / 50)
  ∧ whPerToken (mkMetrics 30 40 80 8 1 50 (some 100)) = some ((1 : ℚ) / 100) :=
  ⟨C6_derived_rates.1 30 40 80 8 1 50 (some 100) 100 rfl,
   C6_derived_rates.2 (mkMetrics 30 40 80 8 1 50 (some 100)) 100 rfl (by decide)⟩

theorem sum_instantaneous_cpu_only (samples : List Sample)
    (h : ∀ s ∈ samples, s.gpu_watts = none) :
    (samples.map instantaneousWatts).sum =
      samples.length * BASE_IDLE_WATTS
        + CPU_WATT_COEFFICIENT
            * (samples.map (fun s => clampPercent s.cpu_percent)).sum := by
  induction samples with
  | nil => simp
  | cons s ss ih =>
    have hs : s.gpu_watts = none := h s (List.mem_cons_self s ss)
    have hss : ∀ x ∈ ss, x.gpu_watts = none :=
      fun x hx => h x (List.mem_cons_of_mem s hx)
    simp only [List.map_cons, List.sum_cons, ih hss, instantaneousWatts, hs,
      gpuContribution, List.length_cons]
    push_cast
    ring

/-- Claim C7: the power formula with its default constants, and the
CPU-only consequence: over a nonempty window with no GPU telemetry the
average power is exactly the base wattage plus the coefficient times
the average CPU percentage. -/
theorem C7_power_formula :
    BASE_IDLE_WATTS = 50
  ∧ CPU_WATT_COEFFICIENT = 2
  ∧ (∀ s : Sample, instantaneousWatts s =
      BASE_IDLE_WATTS + clampPercent s.cpu_percent * CPU_WATT_COEFFICIENT
        + gpuContribution s.gpu_watts)
  ∧ (∀ samples : List Sample, samples ≠ [] →
      (∀ s ∈ samples, s.gpu_watts = none) →
      avgPowerWatts samples =
        BASE_IDLE_WATTS + avgCpuPercent samples * CPU_WATT_COEFFICIENT) := by
  refine ⟨rfl, rfl, fun s => rfl, ?_⟩
  intro samples hne hgpu
  have hn : ((samples.length : ℚ)) ≠ 0 := by
    have hlen : samples.length ≠ 0 :=
      Nat.pos_iff_ne_zero.mp (List.length_pos.mpr hne)
    exact_mod_cast hlen
  rw [avgPowerWatts, sum_instantaneous_cpu_only samples hgpu, avgCpuPercent]
  field_simp
  ring

/-- Claim C7, witness: a window of two CPU-only samples. -/
theorem C7_power_formula_witness :
    ([⟨40, 50, none, none⟩, ⟨60, 55, none, none⟩] : List Sample) ≠ []
  ∧ avgPowerWatts [⟨40, 50, none, none⟩, ⟨60, 55, none, none⟩] =
      BASE_IDLE_WATTS
        + avgCpuPercent [⟨40, 50, none, none⟩, ⟨60, 55, none, none⟩]
            * CPU_WATT_COEFFICIENT :=
  ⟨by decide, C7_power_formula.2.2.2 _ (by decide) (by decide)⟩

/-- Claim C8: the clean command deletes the store file exactly when it
exists and the answer lower-cases to y or yes; a missing file reports
nothing to clean; any outcome other than deletion leaves the file as it
was. -/
theorem C8_clean_confirmation (dbExists : Bool) (answer : List Char) :
    (cleanCommand dbExists answer = CleanOutcome.deleted ↔
      dbExists = true ∧ (jsLower answer = "y".data ∨ jsLower answer = "yes".data))
  ∧ (dbExists = false → cleanCommand dbExists answer = CleanOutcome.nothingToClean)
  ∧ (cleanCommand dbExists answer ≠ CleanOutcome.deleted →
      dbExistsAfterClean dbExists answer = dbExists) := by
  cases dbExists <;> by_cases h : confirmAccepted answer = true <;>
    simp_all [cleanCommand, dbExistsAfterClean, confirmAccepted]
  tauto

/-- Claim C8, witness: with an existing store file and the answer YES,
the command deletes the file. -/
theorem C8_clean_confirmation_witness :
    cleanCommand true "YES".data = CleanOutcome.deleted :=
  (C8_clean_confirmation true "YES".data).1.mpr ⟨rfl, Or.inr (by decide)⟩

/-- Claim C9: without a truthy `--models` value the benchmark command
only lists models and exits, with code 1 exactly when no models are
available; a truthy value is split on commas with every entry trimmed,
and a benchmark run implies the option was given. -/
theorem C9_model_selection :
    (∀ available : List (List Char), available ≠ [] →
      selectModels none available = ModelSelection.exit 0)
  ∧ (selectModels none [] = ModelSelection.exit 1)
  ∧ (∀ (s : List Char) (available : List (List Char)), s ≠ [] →
      selectModels (some s) available =
        ModelSelection.run ((splitOnComma s).map jsTrim))
  ∧ (∀ modelsOpt available models,
      selectModels modelsOpt available = ModelSelection.run models →
      optTruthyS modelsOpt = true) := by
  refine ⟨?_, by simp [selectModels, optTruthyS], ?_, ?_⟩
  · intro avail h
    simp [selectModels, optTruthyS, h]
  · intro s avail hs
    simp [selectModels, optTruthyS, hs]
  · intro mo avail models h
    by_cases ht : optTruthyS mo = true
    · exact ht
    · exfalso
      rw [selectModels, if_neg ht] at h
      by_cases hl : avail.length = 0
      · rw [if_pos hl] at h
        exact ModelSelection.noConfusion h
      · rw [if_neg hl] at h
        exact ModelSelection.noConfusion h

/-- Claim C9, witness: a concrete `--models` value with a space after
the comma is split and trimmed. -/
theorem C9_model_selection_witness :
    selectModels (some ("llama3:8b, phi3:mini".data)) ["llama3:8b".data] =
      ModelSelection.run ((splitOnComma ("llama3:8b, phi3:mini".data)).map jsTrim)
  ∧ (splitOnComma ("llama3:8b, phi3:mini".data)).map jsTrim =
      ["llama3:8b".data, "phi3:mini".data] :=
  ⟨C9_model_selection.2.2.1 ("llama3:8b, phi3:mini".data) ["llama3:8b".data]
      (by decide),
   by decide⟩

/-- Claim C10, corrected: both implementations of `findLLMProcesses`
return the empty list when the process query fails; every process the
part_001 implementation returns comes from the query, matches no
exclusion pattern, and matches a keyword; the cli/index.ts
implementation checks keywords only, so the exclusion guarantee holds
only for part_001. -/
theorem C10_find_llm_processes (e : String) (ps : List ProcInfo) :
    findLLMProcesses (Except.error e) = []
  ∧ findLLMProcessesLegacy (Except.error e) = []
  ∧ (∀ p ∈ findLLMProcesses (Except.ok ps), p ∈ ps ∧
      (∀ pat ∈ excludePatterns,
        listIncludes (lowerOrEmpty p.name) pat = false ∧
        listIncludes (lowerOrEmpty p.command) pat = false) ∧
      (∃ n ∈ LLM_PROCESSES,
        listIncludes (lowerOrEmpty p.name) n = true ∨
        listIncludes (lowerOrEmpty p.command) n = true))
  ∧ (∀ p ∈ findLLMProcessesLegacy (Except.ok ps), p ∈ ps ∧
      ∃ n ∈ LLM_PROCESSES_legacy,
        listIncludes (lowerOrEmpty p.name) n = true ∨
        listIncludes (lowerOrEmpty p.command) n = true) := by
  refine ⟨rfl, rfl, ?_, ?_⟩
  · intro p hp
    rw [findLLMProcesses] at hp
    have hmem := List.mem_of_mem_filter hp
    have hpred := List.of_mem_filter hp
    rw [isLLMProcess] at hpred
    by_cases hex : excludePatterns.any (fun pat =>
        listIncludes (lowerOrEmpty p.name) pat
          || listIncludes (lowerOrEmpty p.command) pat) = true
    · rw [if_pos hex] at hpred
      exact absurd hpred (by simp)
    · rw [if_neg hex] at hpred
      refine ⟨hmem, ?_, ?_⟩
      · intro pat hpat
        have hno : ¬ (listIncludes (lowerOrEmpty p.name) pat
            || listIncludes (lowerOrEmpty p.command) pat) = true := by
          intro hcontra
          exact hex (List.any_eq_true.mpr ⟨pat, hpat, hcontra⟩)
        simpa only [Bool.or_eq_true, not_or, Bool.not_eq_true] using hno
      · obtain ⟨n, hn, hor⟩ := List.any_eq_true.mp hpred
        exact ⟨n, hn, by simpa using hor⟩
  · intro p hp
    rw [findLLMProcessesLegacy] at hp
    have hmem := List.mem_of_mem_filter hp
    have hpred := List.of_mem_filter hp
    rw [isLLMProcessLegacy] at hpred
    obtain ⟨n, hn, hor⟩ := List.any_eq_true.mp hpred
    exact ⟨hmem, n, hn, by simpa using hor⟩

/-- Claim C10, witness: the part_001 filter keeps a genuine Ollama
process, which matches no exclusion pattern and matches a keyword. -/
theorem C10_find_llm_processes_witness :
    demoOllamaProc ∈ [demoOllamaProc] ∧
      (∀ pat ∈ excludePatterns,
        listIncludes (lowerOrEmpty demoOllamaProc.name) pat = false ∧
        listIncludes (lowerOrEmpty demoOllamaProc.command) pat = false) ∧
      (∃ n ∈ LLM_PROCESSES,
        listIncludes (lowerOrEmpty demoOllamaProc.name) n = true ∨
        listIncludes (lowerOrEmpty demoOllamaProc.command) n = true) :=
  (C10_find_llm_processes "query failed" [demoOllamaProc]).2.2.1
    demoOllamaProc (by decide)

/-- Claim C10, counterexample: a process named vscode whose command
mentions node matches the exclusion pattern vscode, yet the
cli/index.ts implementation returns it (the node keyword matches and
no exclusion is applied), while the part_001 implementation drops it. -/
theorem C10_counterexample :
    listIncludes (lowerOrEmpty demoVscodeProc.name) ("vscode".data) = true
  ∧ findLLMProcessesLegacy (Except.ok [demoVscodeProc]) = [demoVscodeProc]
  ∧ findLLMProcesses (Except.ok [demoVscodeProc]) = [] := by decide

end EnviroLLM
